import Mathlib

/-!
Verification of the issue-driven remediation loop of CodeReliabilityScanner.

The definitions below are shallow embeddings of the Python source under `src/`:
pure string/list manipulation is translated directly; stateful code is
translated to explicit state passing; subprocess and filesystem effects are
made explicit as event traces and outcome parameters.  Each claim about the
program is stated and settled as a theorem about these definitions.
-/

namespace CRScan

/-! ## Python string primitives

`pyIn sub s` embeds the Python expression `sub in s` (substring containment),
and `joinLines sep l` embeds `sep.join(l)`. -/

/-- Embeds Python list/str prefix test: `listPrefixOf p l` is true when `p` is
an initial segment of `l`. -/
def listPrefixOf : List Char → List Char → Bool
  | [], _ => true
  | _ :: _, [] => false
  | a :: as, b :: bs => a = b && listPrefixOf as bs

/-- Embeds Python substring search: `listContainsSeq p l` is true when the
character sequence `p` occurs contiguously inside `l`. -/
def listContainsSeq : List Char → List Char → Bool
  | pat, [] => listPrefixOf pat []
  | pat, c :: rest => listPrefixOf pat (c :: rest) || listContainsSeq pat rest

/-- Embeds the Python expression `sub in s` on strings. -/
def pyIn (sub s : String) : Bool := listContainsSeq sub.data s.data

/-- Embeds the Python expression `sep.join(lines)`. -/
def joinLines (sep : String) : List String → String
  | [] => ""
  | [x] => x
  | x :: y :: rest => x ++ sep ++ joinLines sep (y :: rest)

/-- Embeds the Python expression `s.strip()`: remove leading and trailing
whitespace. -/
def pyStrip (s : String) : String :=
  ⟨((s.data.dropWhile Char.isWhitespace).reverse.dropWhile Char.isWhitespace).reverse⟩

theorem listPrefixOf_self_append (p t : List Char) :
    listPrefixOf p (p ++ t) = true := by
  induction p with
  | nil => rfl
  | cons a as ih => simp [listPrefixOf, ih]

theorem listContainsSeq_of_listPrefixOf {p l : List Char}
    (h : listPrefixOf p l = true) : listContainsSeq p l = true := by
  cases l with
  | nil => simpa [listContainsSeq] using h
  | cons c rest => simp [listContainsSeq, h]

theorem listContainsSeq_cons {p rest : List Char} (c : Char)
    (h : listContainsSeq p rest = true) : listContainsSeq p (c :: rest) = true := by
  simp [listContainsSeq, h]

theorem listContainsSeq_append_left {p y : List Char} (x : List Char)
    (h : listContainsSeq p y = true) : listContainsSeq p (x ++ y) = true := by
  induction x with
  | nil => simpa using h
  | cons c cs ih => exact listContainsSeq_cons c ih

theorem listContainsSeq_self_append (p t : List Char) :
    listContainsSeq p (p ++ t) = true :=
  listContainsSeq_of_listPrefixOf (listPrefixOf_self_append p t)

/-- Every member of a list occurs as a substring of the joined string. -/
theorem pyIn_joinLines {i : String} {l : List String} (sep : String)
    (h : i ∈ l) : pyIn i (joinLines sep l) = true := by
  induction l with
  | nil => cases h
  | cons x rest ih =>
    cases h with
    | head =>
      cases rest with
      | nil => simpa [pyIn, joinLines] using listContainsSeq_self_append i.data []
      | cons y ys =>
        have : joinLines sep (i :: y :: ys) = i ++ (sep ++ joinLines sep (y :: ys)) := by
          simp [joinLines, String.append_assoc]
        rw [pyIn, this, String.data_append]
        exact listContainsSeq_self_append i.data _
    | tail _ hmem =>
      have hrest := ih hmem
      cases rest with
      | nil => cases hmem
      | cons y ys =>
        have : joinLines sep (x :: y :: ys) = (x ++ sep) ++ joinLines sep (y :: ys) := by
          simp [joinLines, String.append_assoc]
        rw [pyIn, this, String.data_append]
        exact listContainsSeq_append_left _ hrest

/-- A substring of `s` is a substring of `pre ++ s`. -/
theorem pyIn_append_left {i s : String} (pre : String)
    (h : pyIn i s = true) : pyIn i (pre ++ s) = true := by
  rw [pyIn, String.data_append]
  exact listContainsSeq_append_left _ h

/-! ## IssueProcessor.group_issues_by_type (src/issue_processor.py lines 71-96) -/

/-- The four fixed categories used by `IssueProcessor.group_issues_by_type`. -/
inductive IssueCat where
  | complexity
  | style
  | error_handling
  | other
deriving DecidableEq

/-- Embeds the if/elif chain of `group_issues_by_type` classifying one issue
line: complexity markers are checked first, then style markers, then the
error-handling keywords, else `other`. -/
def classify_issue (issue : String) : IssueCat :=
  if ["too-many", "R09", "R10"].any (fun x => pyIn x issue) then .complexity
  else if ["missing-", "unused-", "pointless-"].any (fun x => pyIn x issue) then .style
  else if pyIn "exception" issue || pyIn "return" issue then .error_handling
  else .other

/-- The grouped-issues dictionary with its four fixed keys, in the insertion
order of the Python dict literal. -/
structure GroupedIssues where
  complexity : List String
  style : List String
  error_handling : List String
  other : List String
deriving DecidableEq

/-- One iteration of the `for issue in issues` loop of
`group_issues_by_type`: append the issue to the list of its category. -/
def addIssue (g : GroupedIssues) (issue : String) : GroupedIssues :=
  match classify_issue issue with
  | .complexity => { g with complexity := g.complexity ++ [issue] }
  | .style => { g with style := g.style ++ [issue] }
  | .error_handling => { g with error_handling := g.error_handling ++ [issue] }
  | .other => { g with other := g.other ++ [issue] }

/-- Embeds `IssueProcessor.group_issues_by_type`. -/
def group_issues_by_type (issues : List String) : GroupedIssues :=
  issues.foldl addIssue ⟨[], [], [], []⟩

theorem foldl_addIssue (g : GroupedIssues) (issues : List String) :
    issues.foldl addIssue g =
      ⟨g.complexity ++ issues.filter (fun i => decide (classify_issue i = .complexity)),
       g.style ++ issues.filter (fun i => decide (classify_issue i = .style)),
       g.error_handling ++ issues.filter (fun i => decide (classify_issue i = .error_handling)),
       g.other ++ issues.filter (fun i => decide (classify_issue i = .other))⟩ := by
  induction issues generalizing g with
  | nil => simp
  | cons i rest ih =>
    rw [List.foldl_cons, ih]
    rcases hc : classify_issue i with _ | _ | _ | _ <;>
      simp [addIssue, hc, List.filter_cons]

theorem group_issues_by_type_eq_filter (issues : List String) :
    group_issues_by_type issues =
      ⟨issues.filter (fun i => decide (classify_issue i = .complexity)),
       issues.filter (fun i => decide (classify_issue i = .style)),
       issues.filter (fun i => decide (classify_issue i = .error_handling)),
       issues.filter (fun i => decide (classify_issue i = .other))⟩ := by
  simpa using foldl_addIssue ⟨[], [], [], []⟩ issues

theorem classify_partition_perm (issues : List String) :
    (issues.filter (fun i => decide (classify_issue i = .complexity)) ++
     issues.filter (fun i => decide (classify_issue i = .style)) ++
     issues.filter (fun i => decide (classify_issue i = .error_handling)) ++
     issues.filter (fun i => decide (classify_issue i = .other))).Perm issues := by
  induction issues with
  | nil => simp
  | cons i rest ih =>
    set f1 := rest.filter (fun i => decide (classify_issue i = IssueCat.complexity)) with hf1
    set f2 := rest.filter (fun i => decide (classify_issue i = IssueCat.style)) with hf2
    set f3 := rest.filter (fun i => decide (classify_issue i = IssueCat.error_handling)) with hf3
    set f4 := rest.filter (fun i => decide (classify_issue i = IssueCat.other)) with hf4
    have ih4 : (f1 ++ (f2 ++ (f3 ++ f4))).Perm rest := by
      simpa [List.append_assoc] using ih
    rcases hc : classify_issue i with _ | _ | _ | _ <;>
      simp only [List.filter_cons, hc, decide_eq_true_eq, reduceCtorEq,
        decide_True, decide_False, ite_true, ite_false, ← hf1, ← hf2, ← hf3, ← hf4]
    · exact ih.cons i
    · have he : f1 ++ (i :: f2) ++ f3 ++ f4 = f1 ++ i :: (f2 ++ (f3 ++ f4)) := by
        simp [List.append_assoc]
      rw [he]
      exact List.perm_middle.trans (ih4.cons i)
    · have he : f1 ++ f2 ++ (i :: f3) ++ f4 = (f1 ++ f2) ++ i :: (f3 ++ f4) := by
        simp [List.append_assoc]
      have ha : ((f1 ++ f2) ++ (f3 ++ f4)).Perm rest := by
        simpa [List.append_assoc] using ih
      rw [he]
      exact List.perm_middle.trans (ha.cons i)
    · have he : f1 ++ f2 ++ f3 ++ (i :: f4) = (f1 ++ f2 ++ f3) ++ i :: f4 := by
        simp [List.append_assoc]
      have ha : ((f1 ++ f2 ++ f3) ++ f4).Perm rest := by
        simpa [List.append_assoc] using ih
      rw [he]
      exact List.perm_middle.trans (ha.cons i)

/-- Claim C6: for every issue list, grouping by category assigns every entry to
exactly one of the four fixed categories (complexity, style, error_handling,
other) using the stated substring markers with complexity checked first,
preserving original order within each group (each group is the order-preserving
filter of the original list by its category), so that the union of all groups
equals the original list with no loss and no duplication (a permutation). -/
theorem group_issues_by_type_partitions (issues : List String) :
    (group_issues_by_type issues).complexity =
      issues.filter (fun i => decide (classify_issue i = .complexity)) ∧
    (group_issues_by_type issues).style =
      issues.filter (fun i => decide (classify_issue i = .style)) ∧
    (group_issues_by_type issues).error_handling =
      issues.filter (fun i => decide (classify_issue i = .error_handling)) ∧
    (group_issues_by_type issues).other =
      issues.filter (fun i => decide (classify_issue i = .other)) ∧
    ((group_issues_by_type issues).complexity ++ (group_issues_by_type issues).style ++
     (group_issues_by_type issues).error_handling ++
     (group_issues_by_type issues).other).Perm issues ∧
    (∀ i : String, ["too-many", "R09", "R10"].any (fun x => pyIn x i) = true →
      classify_issue i = .complexity) := by
  rw [group_issues_by_type_eq_filter]
  refine ⟨rfl, rfl, rfl, rfl, classify_partition_perm issues, ?_⟩
  intro i h
  simp [classify_issue, h]

/-- Witness for C6 at a concrete issue list: an issue carrying both a
complexity marker and a style marker is classified as complexity (complexity
is checked first). -/
theorem group_issues_by_type_partitions_witness :
    classify_issue "too-many-branches: foo has missing-docstring" = IssueCat.complexity :=
  (group_issues_by_type_partitions []).2.2.2.2.2
    "too-many-branches: foo has missing-docstring" (by decide)

/-! ## IssueProcessor.process_issues_with_sliding_window
(src/issue_processor.py lines 150-162) -/

/-- Embeds the window slicing of `process_issues_with_sliding_window`: the
Python loop `for i in range(0, len(issues), window_size)` takes successive
slices `issues[i : i + window_size]`.  Modelled for positive window sizes
(Python `range` raises ValueError for a zero step, and the method's default is
5). -/
def sliding_window_groups (w : Nat) : List String → List (List String)
  | [] => []
  | x :: xs =>
    match w with
    | 0 => []
    | w' + 1 =>
      (x :: xs).take (w' + 1) :: sliding_window_groups (w' + 1) ((x :: xs).drop (w' + 1))
termination_by l => l.length
decreasing_by simp [List.length_drop]; omega

/-- Embeds `process_issues_with_sliding_window`: one synthesized instruction
per window, each passed to `aider_runner.run_aider`. -/
def process_issues_with_sliding_window (w : Nat) (issues : List String) : List String :=
  (sliding_window_groups w issues).map
    (fun window => "Address the following issues:\n" ++ joinLines "\n" window)

theorem sliding_window_groups_cons (w' : Nat) (x : String) (xs : List String) :
    sliding_window_groups (w' + 1) (x :: xs) =
      (x :: xs).take (w' + 1) ::
        sliding_window_groups (w' + 1) ((x :: xs).drop (w' + 1)) := by
  rw [sliding_window_groups]

theorem sliding_window_groups_flatten (w : Nat) (hw : 0 < w) (issues : List String) :
    (sliding_window_groups w issues).flatten = issues := by
  obtain ⟨w', rfl⟩ : ∃ k, w = k + 1 := ⟨w - 1, by omega⟩
  have H : ∀ n (l : List String), l.length ≤ n →
      (sliding_window_groups (w' + 1) l).flatten = l := by
    intro n
    induction n with
    | zero =>
      intro l hl
      have : l = [] := List.length_eq_zero.mp (Nat.le_zero.mp hl)
      subst this
      simp [sliding_window_groups]
    | succ n ih =>
      intro l hl
      match l with
      | [] => simp [sliding_window_groups]
      | x :: xs =>
        rw [sliding_window_groups_cons]
        have hlen : ((x :: xs).drop (w' + 1)).length ≤ n := by
          simp only [List.length_drop, List.length_cons]
          simp only [List.length_cons] at hl
          omega
        rw [List.flatten_cons, ih _ hlen, List.take_append_drop]
  exact H issues.length issues le_rfl

theorem sliding_window_groups_length (w : Nat) (hw : 0 < w) (issues : List String) :
    (sliding_window_groups w issues).length = (issues.length + w - 1) / w := by
  obtain ⟨w', rfl⟩ : ∃ k, w = k + 1 := ⟨w - 1, by omega⟩
  have H : ∀ n (l : List String), l.length ≤ n →
      (sliding_window_groups (w' + 1) l).length = (l.length + (w' + 1) - 1) / (w' + 1) := by
    intro n
    induction n with
    | zero =>
      intro l hl
      have : l = [] := List.length_eq_zero.mp (Nat.le_zero.mp hl)
      subst this
      simp [sliding_window_groups, Nat.div_eq_of_lt]
    | succ n ih =>
      intro l hl
      match l with
      | [] => simp [sliding_window_groups, Nat.div_eq_of_lt]
      | x :: xs =>
        rw [sliding_window_groups_cons]
        have hlen : ((x :: xs).drop (w' + 1)).length ≤ n := by
          simp only [List.length_drop, List.length_cons]
          simp only [List.length_cons] at hl
          omega
        rw [List.length_cons, ih _ hlen]
        simp only [List.length_drop, List.length_cons]
        rcases Nat.lt_or_ge (xs.length + 1) (w' + 1) with hsmall | hbig
        · have h1 : xs.length + 1 - (w' + 1) = 0 := by omega
          rw [h1]
          have h2 : (0 + (w' + 1) - 1) / (w' + 1) = 0 := Nat.div_eq_of_lt (by omega)
          rw [h2]
          have h3 : (xs.length + 1 + (w' + 1) - 1) / (w' + 1) = 1 :=
            Nat.div_eq_of_lt_le (by omega) (by omega)
          omega
        · have h1 : xs.length + 1 - (w' + 1) + (w' + 1) - 1 = xs.length := by omega
          have h2 : xs.length + 1 + (w' + 1) - 1 = xs.length + (w' + 1) := by omega
          rw [h1, h2, Nat.add_div_right _ (by omega : 0 < w' + 1)]
  exact H issues.length issues le_rfl

theorem sliding_window_groups_mem (w : Nat) (hw : 0 < w) (issues : List String) :
    ∀ g ∈ sliding_window_groups w issues, g.length ≤ w ∧ g ≠ [] := by
  obtain ⟨w', rfl⟩ : ∃ k, w = k + 1 := ⟨w - 1, by omega⟩
  have H : ∀ n (l : List String), l.length ≤ n →
      ∀ g ∈ sliding_window_groups (w' + 1) l, g.length ≤ w' + 1 ∧ g ≠ [] := by
    intro n
    induction n with
    | zero =>
      intro l hl g hg
      have : l = [] := List.length_eq_zero.mp (Nat.le_zero.mp hl)
      subst this
      simp [sliding_window_groups] at hg
    | succ n ih =>
      intro l hl g hg
      match l with
      | [] => simp [sliding_window_groups] at hg
      | x :: xs =>
        rw [sliding_window_groups_cons] at hg
        rcases List.mem_cons.mp hg with hhead | htail
        · subst hhead
          constructor
          · exact List.length_take_le (w' + 1) (x :: xs)
          · simp [List.take_cons]
        · have hlen : ((x :: xs).drop (w' + 1)).length ≤ n := by
            simp only [List.length_drop, List.length_cons]
            simp only [List.length_cons] at hl
            omega
          exact ih _ hlen g htail
  exact H issues.length issues le_rfl

theorem sliding_window_groups_dropLast (w : Nat) (hw : 0 < w) (issues : List String) :
    ∀ g ∈ (sliding_window_groups w issues).dropLast, g.length = w := by
  obtain ⟨w', rfl⟩ : ∃ k, w = k + 1 := ⟨w - 1, by omega⟩
  have H : ∀ n (l : List String), l.length ≤ n →
      ∀ g ∈ (sliding_window_groups (w' + 1) l).dropLast, g.length = w' + 1 := by
    intro n
    induction n with
    | zero =>
      intro l hl g hg
      have : l = [] := List.length_eq_zero.mp (Nat.le_zero.mp hl)
      subst this
      simp [sliding_window_groups] at hg
    | succ n ih =>
      intro l hl g hg
      match l with
      | [] => simp [sliding_window_groups] at hg
      | x :: xs =>
        rw [sliding_window_groups_cons] at hg
        rcases hdrop : (x :: xs).drop (w' + 1) with _ | ⟨y, ys⟩
        · rw [hdrop] at hg
          simp [sliding_window_groups] at hg
        · have hne : sliding_window_groups (w' + 1) ((x :: xs).drop (w' + 1)) ≠ [] := by
            rw [hdrop, sliding_window_groups_cons]
            simp
          rw [List.dropLast_cons_of_ne_nil hne] at hg
          rcases List.mem_cons.mp hg with hhead | htail
          · subst hhead
            have hlong : w' + 1 ≤ (x :: xs).length := by
              by_contra hcon
              have : (x :: xs).drop (w' + 1) = [] := by
                apply List.drop_eq_nil_of_le
                omega
              rw [this] at hdrop
              cases hdrop
            simpa using List.length_take_of_le hlong
          · have hlen : ((x :: xs).drop (w' + 1)).length ≤ n := by
              simp only [List.length_drop, List.length_cons]
              simp only [List.length_cons] at hl
              omega
            exact ih _ hlen g htail
  exact H issues.length issues le_rfl

/-- Claim C7: for every issue list of length N and window size W > 0,
sliding-window grouping produces exactly ceil(N/W) contiguous groups (in
natural numbers, (N + W - 1) / W), each of size W except possibly the last,
which is nonempty and no longer than W, and concatenating all groups in order
reconstructs the original list exactly. -/
theorem sliding_window_groups_spec (issues : List String) (w : Nat) (hw : 0 < w) :
    (sliding_window_groups w issues).length = (issues.length + w - 1) / w ∧
    (sliding_window_groups w issues).flatten = issues ∧
    (∀ g ∈ (sliding_window_groups w issues).dropLast, g.length = w) ∧
    (∀ g ∈ sliding_window_groups w issues, g.length ≤ w ∧ g ≠ []) :=
  ⟨sliding_window_groups_length w hw issues,
   sliding_window_groups_flatten w hw issues,
   sliding_window_groups_dropLast w hw issues,
   sliding_window_groups_mem w hw issues⟩

/-- Witness for C7 at a concrete input: 5 issues with window size 2 produce
ceil(5/2) = 3 groups whose concatenation is the original list. -/
theorem sliding_window_groups_spec_witness :
    (sliding_window_groups 2 ["a", "b", "c", "d", "e"]).length = 3 ∧
    (sliding_window_groups 2 ["a", "b", "c", "d", "e"]).flatten =
      ["a", "b", "c", "d", "e"] := by
  have h := sliding_window_groups_spec ["a", "b", "c", "d", "e"] 2 (by decide)
  exact ⟨h.1, h.2.1⟩

/-! ## IssueProcessor.group_issues_by_function, message synthesis, and the
orchestrator's strategy dispatch (src/issue_processor.py lines 98-148,
src/file_processor.py lines 102-111) -/

/-- One update of the insertion-ordered dict `grouped[func_name].append(issue)`
of `group_issues_by_function`, modelled on an association list. -/
def insertFuncIssue (g : List (String × List String)) (k issue : String) :
    List (String × List String) :=
  match g with
  | [] => [(k, [issue])]
  | (k0, l0) :: rest =>
    if k0 = k then (k0, l0 ++ [issue]) :: rest
    else (k0, l0) :: insertFuncIssue rest k issue

/-- Embeds `IssueProcessor.group_issues_by_function` (lines 98-116): split each
issue on a colon and, when a third field exists, use its stripped value as the
function-name key; issues without a third field are dropped.  The Python dict
preserves insertion order and is modelled as an association list. -/
def group_issues_by_function (issues : List String) : List (String × List String) :=
  issues.foldl
    (fun g issue =>
      let parts := issue.splitOn ":"
      if 2 < parts.length then insertFuncIssue g (pyStrip (parts.getD 2 "")) issue else g)
    []

/-- Embeds `IssueProcessor.process_issues_by_function` (lines 135-148): one
instruction per function group, each passed to `aider_runner.run_aider`. -/
def process_issues_by_function_messages (issues : List String) : List String :=
  (group_issues_by_function issues).map
    (fun kv => "Refactor function " ++ kv.1 ++ " to address: " ++ joinLines "\n" kv.2)

/-- Embeds `IssueProcessor.process_issues` (lines 118-133): group by type, then
for each of the four categories in dict order emit one instruction per
non-empty group, each passed to `aider_runner.run_aider`. -/
def process_issues_messages (issues : List String) : List String :=
  let g := group_issues_by_type issues
  [("complexity", g.complexity), ("style", g.style),
   ("error_handling", g.error_handling), ("other", g.other)].filterMap
    (fun kv =>
      if kv.2 = [] then none
      else some ("Refactor to address " ++ kv.1 ++ " issues: " ++ joinLines "\n" kv.2))

/-- Embeds `FileProcessor._process_issues` (src/file_processor.py lines
102-111): the strategy dispatch on issue count.  The result is the list of
instruction strings passed to aider, one session invocation per entry. -/
def file_processor_process_issues (issues : List String) : List String :=
  if 10 < issues.length then process_issues_messages issues
  else if 5 < issues.length then process_issues_by_function_messages issues
  else ["Address the following issues: " ++ joinLines "\n" issues]

/-- Claim C5: the orchestrator selects the grouping strategy by count: more
than 10 issues uses grouping by category, 6 to 10 uses grouping by function,
and 5 or fewer produces a single synthesized instruction covering literally
all issues (every issue line occurs verbatim inside it) with exactly one
session invocation. -/
theorem file_processor_process_issues_spec (issues : List String) :
    (10 < issues.length →
      file_processor_process_issues issues = process_issues_messages issues) ∧
    (5 < issues.length → issues.length ≤ 10 →
      file_processor_process_issues issues = process_issues_by_function_messages issues) ∧
    (issues.length ≤ 5 →
      file_processor_process_issues issues =
        ["Address the following issues: " ++ joinLines "\n" issues] ∧
      (file_processor_process_issues issues).length = 1 ∧
      ∀ i ∈ issues,
        pyIn i ("Address the following issues: " ++ joinLines "\n" issues) = true) := by
  refine ⟨?_, ?_, ?_⟩
  · intro h10
    simp [file_processor_process_issues, h10]
  · intro h5 h10
    have : ¬ 10 < issues.length := by omega
    simp [file_processor_process_issues, this, h5]
  · intro h5
    have h10 : ¬ 10 < issues.length := by omega
    have h5n : ¬ 5 < issues.length := by omega
    refine ⟨by simp [file_processor_process_issues, h10, h5n], ?_, ?_⟩
    · simp [file_processor_process_issues, h10, h5n]
    · intro i hi
      exact pyIn_append_left _ (pyIn_joinLines "\n" hi)

/-- Witness for C5 at the specification's concrete scenario: 3 issues (at most
5) yield exactly one instruction, and each issue line occurs inside it. -/
theorem file_processor_process_issues_spec_witness :
    (file_processor_process_issues
      ["too-many-branches: foo", "missing-docstring: bar", "missing-docstring: baz"]).length
        = 1 ∧
    pyIn "missing-docstring: baz"
      ("Address the following issues: " ++ joinLines "\n"
        ["too-many-branches: foo", "missing-docstring: bar", "missing-docstring: baz"])
      = true := by
  have h := (file_processor_process_issues_spec
    ["too-many-branches: foo", "missing-docstring: bar", "missing-docstring: baz"]).2.2
    (by decide)
  exact ⟨h.2.1, h.2.2 "missing-docstring: baz" (by decide)⟩

/-! ## ResourceManager.check_rate_limit (src/resource_manager.py lines 83-95) -/

/-- Embeds `ResourceManager.check_rate_limit`.  Time is in whole seconds;
`now - t < 60` embeds `current_time - call_time < timedelta(minutes=1)` (Nat
truncated subtraction agrees with the Python comparison, also for timestamps
in the future).  Returns the boolean result with the updated `api_calls`. -/
def check_rate_limit (api_rate_limit : Nat) (now : Nat) (api_calls : List Nat) :
    Bool × List Nat :=
  let pruned := api_calls.filter (fun t => now - t < 60)
  if api_rate_limit ≤ pruned.length then (false, pruned)
  else (true, pruned ++ [now])

/-- Claim C4: each check first prunes timestamps older than 60 seconds,
returns false without recording when the remaining count already equals the
configured limit, and otherwise records the current instant and returns true;
after exactly `limit` permitted calls within one window the next check returns
false, once more than 60 seconds have elapsed since a recorded call capacity
is restored, and the window never retains timestamps 60 or more seconds old
after a check.  (States with more than `limit` recorded timestamps are not
reachable, hence the length hypothesis.) -/
theorem check_rate_limit_spec (limit now : Nat) (calls : List Nat)
    (hlen : calls.length ≤ limit) :
    (∀ t ∈ (check_rate_limit limit now calls).2, now - t < 60) ∧
    (check_rate_limit limit now calls).2.length ≤ limit ∧
    ((calls.filter (fun t => now - t < 60)).length = limit →
      check_rate_limit limit now calls =
        (false, calls.filter (fun t => now - t < 60))) ∧
    ((calls.filter (fun t => now - t < 60)).length ≠ limit →
      check_rate_limit limit now calls =
        (true, calls.filter (fun t => now - t < 60) ++ [now])) ∧
    ((∀ t ∈ calls, now - t < 60) → calls.length = limit →
      (check_rate_limit limit now calls).1 = false) ∧
    ((∃ t ∈ calls, 60 ≤ now - t) → (check_rate_limit limit now calls).1 = true) := by
  set pruned := calls.filter (fun t => now - t < 60) with hp
  have hfle : pruned.length ≤ calls.length := List.length_filter_le _ calls
  have hmem : ∀ t ∈ pruned, now - t < 60 := by
    intro t ht
    have := List.of_mem_filter ht
    simpa using this
  by_cases hc : limit ≤ pruned.length
  · have hck : check_rate_limit limit now calls = (false, pruned) := by
      simp [check_rate_limit, ← hp, hc]
    refine ⟨?_, ?_, ?_, ?_, ?_, ?_⟩
    · rw [hck]
      exact hmem
    · rw [hck]
      show pruned.length ≤ limit
      omega
    · intro _
      rw [hck]
    · intro hne
      exfalso
      omega
    · intro _ _
      rw [hck]
    · rintro ⟨t, ht, h60⟩
      have hlt : pruned.length < calls.length :=
        List.length_filter_lt_length_iff_exists.mpr
          ⟨t, ht, by simpa using Nat.not_lt.mpr h60⟩
      omega
  · have hck : check_rate_limit limit now calls = (true, pruned ++ [now]) := by
      simp [check_rate_limit, ← hp, hc]
    refine ⟨?_, ?_, ?_, ?_, ?_, ?_⟩
    · rw [hck]
      intro t ht
      rcases List.mem_append.mp ht with hin | hlast
      · exact hmem t hin
      · have : t = now := by simpa using hlast
        subst this
        omega
    · rw [hck]
      simp only [List.length_append, List.length_singleton]
      omega
    · intro heq
      exfalso
      omega
    · intro _
      rw [hck]
    · intro hall heq
      have hfe : pruned = calls := by
        rw [hp]
        exact List.filter_eq_self.mpr (fun a ha => by simpa using hall a ha)
      have : pruned.length = calls.length := by rw [hfe]
      exfalso
      omega
    · intro _
      rw [hck]

/-- Witness for C4 at a concrete input: with limit 2 and recorded calls at
instants 0 and 30, a check at instant 61 prunes the call at 0 (61 seconds
old), records the new call and permits it. -/
theorem check_rate_limit_spec_witness :
    check_rate_limit 2 61 [0, 30] = (true, [30, 61]) := by
  have h := (check_rate_limit_spec 2 61 [0, 30] (by decide)).2.2.2.1 (by decide)
  rw [h]
  decide

/-! ## ResourceManager.cleanup_resources and register_temp_file
(src/resource_manager.py lines 55-81)

The filesystem is modelled as an association list from paths to modification
times (seconds); `temp_files` is the registry (a Python set of paths, modelled
as a duplicate-free list in iteration order). -/

/-- Filesystem lookup: `Path.exists` / `Path.stat().st_mtime` combined. -/
def lookupMTime (fs : List (String × Nat)) (p : String) : Option Nat :=
  match fs with
  | [] => none
  | (q, m) :: rest => if q = p then some m else lookupMTime rest p

/-- Embeds `Path.unlink`: remove the path from the filesystem. -/
def removePath (fs : List (String × Nat)) (p : String) : List (String × Nat) :=
  match fs with
  | [] => []
  | (q, m) :: rest => if q = p then removePath rest p else (q, m) :: removePath rest p

/-- Embeds the `for temp_file in list(self.temp_files)` loop of
`cleanup_resources` (lines 60-71): a path that no longer exists is discarded
from the registry; an existing path strictly older than one hour (3600
seconds) is unlinked and discarded; any other path stays registered.  Result:
(filesystem after, registry after, unlinked paths in order). -/
def cleanupTempFiles (now : Nat) (fs : List (String × Nat)) :
    List String → List (String × Nat) × List String × List String
  | [] => (fs, [], [])
  | p :: rest =>
    match lookupMTime fs p with
    | none => cleanupTempFiles now fs rest
    | some m =>
      if 3600 < now - m then
        let r := cleanupTempFiles now (removePath fs p) rest
        (r.1, r.2.1, p :: r.2.2)
      else
        let r := cleanupTempFiles now fs rest
        (r.1, p :: r.2.1, r.2.2)

/-- Embeds `ResourceManager.cleanup_resources` (lines 55-77): age-based
temp-file deletion followed by pruning of the api-call window.  Result:
(filesystem after, registry after, api_calls after, unlinked paths). -/
def cleanup_resources (now : Nat) (fs : List (String × Nat))
    (temp_files : List String) (api_calls : List Nat) :
    List (String × Nat) × List String × List Nat × List String :=
  let r := cleanupTempFiles now fs temp_files
  (r.1, r.2.1, api_calls.filter (fun t => now - t < 60), r.2.2)

/-- Embeds `ResourceManager.register_temp_file` (lines 79-81): adding to the
`temp_files` set. -/
def register_temp_file (temp_files : List String) (p : String) : List String :=
  if p ∈ temp_files then temp_files else temp_files ++ [p]

theorem lookupMTime_removePath_ne (fs : List (String × Nat)) {p q : String}
    (h : p ≠ q) : lookupMTime (removePath fs q) p = lookupMTime fs p := by
  induction fs with
  | nil => rfl
  | cons e rest ih =>
    obtain ⟨a, m⟩ := e
    by_cases haq : a = q
    · subst haq
      have hap : ¬ a = p := fun hc => h (hc ▸ rfl)
      simp [removePath, lookupMTime, hap, ih]
    · by_cases hap : a = p
      · subst hap
        simp [removePath, lookupMTime, haq]
      · simp [removePath, lookupMTime, haq, hap, ih]

theorem lookupMTime_removePath_self (fs : List (String × Nat)) (p : String) :
    lookupMTime (removePath fs p) p = none := by
  induction fs with
  | nil => rfl
  | cons e rest ih =>
    obtain ⟨a, m⟩ := e
    by_cases hap : a = p
    · subst hap
      simpa [removePath, lookupMTime] using ih
    · simp [removePath, lookupMTime, hap, ih]

theorem lookupMTime_none_removePath {fs : List (String × Nat)} {p : String}
    (h : lookupMTime fs p = none) (q : String) :
    lookupMTime (removePath fs q) p = none := by
  by_cases hpq : p = q
  · subst hpq
    exact lookupMTime_removePath_self fs p
  · rw [lookupMTime_removePath_ne fs hpq]
    exact h

theorem lookupMTime_removePath_some {fs : List (String × Nat)} {p q : String}
    {m : Nat} (h : lookupMTime (removePath fs q) p = some m) :
    lookupMTime fs p = some m := by
  by_cases hpq : p = q
  · subst hpq
    rw [lookupMTime_removePath_self fs p] at h
    cases h
  · rw [lookupMTime_removePath_ne fs hpq] at h
    exact h

theorem cleanupTempFiles_sublists (now : Nat) (reg : List String) :
    ∀ fs : List (String × Nat),
      (cleanupTempFiles now fs reg).2.1.Sublist reg ∧
      (cleanupTempFiles now fs reg).2.2.Sublist reg := by
  induction reg with
  | nil =>
    intro fs
    exact ⟨List.Sublist.refl [], List.Sublist.refl []⟩
  | cons p rest ih =>
    intro fs
    rw [cleanupTempFiles]
    rcases hl : lookupMTime fs p with _ | m
    · exact ⟨(ih fs).1.cons p, (ih fs).2.cons p⟩
    · by_cases hage : 3600 < now - m
      · simp only [hage, if_pos]
        exact ⟨(ih (removePath fs p)).1.cons p, (ih (removePath fs p)).2.cons₂ p⟩
      · simp only [hage, if_neg, not_false_iff]
        exact ⟨(ih fs).1.cons₂ p, (ih fs).2.cons p⟩

theorem cleanupTempFiles_deleted_old (now : Nat) (reg : List String) :
    ∀ fs : List (String × Nat), ∀ p ∈ (cleanupTempFiles now fs reg).2.2,
      ∃ m, lookupMTime fs p = some m ∧ 3600 < now - m := by
  induction reg with
  | nil =>
    intro fs p hp
    simp [cleanupTempFiles] at hp
  | cons q rest ih =>
    intro fs p hp
    rw [cleanupTempFiles] at hp
    rcases hl : lookupMTime fs q with _ | m
    · rw [hl] at hp
      exact ih fs p hp
    · rw [hl] at hp
      by_cases hage : 3600 < now - m
      · simp only [hage, if_pos] at hp
        rcases List.mem_cons.mp hp with hpq | htail
        · subst hpq
          exact ⟨m, hl, hage⟩
        · obtain ⟨m2, hm2, hage2⟩ := ih (removePath fs q) p htail
          exact ⟨m2, lookupMTime_removePath_some hm2, hage2⟩
      · simp only [hage, if_neg, not_false_iff] at hp
        exact ih fs p hp

theorem cleanupTempFiles_fs_none (now : Nat) (reg : List String) :
    ∀ fs : List (String × Nat), ∀ p : String, lookupMTime fs p = none →
      lookupMTime (cleanupTempFiles now fs reg).1 p = none := by
  induction reg with
  | nil =>
    intro fs p h
    exact h
  | cons q rest ih =>
    intro fs p h
    rw [cleanupTempFiles]
    rcases hl : lookupMTime fs q with _ | m
    · exact ih fs p h
    · by_cases hage : 3600 < now - m
      · simp only [hage, if_pos]
        exact ih (removePath fs q) p (lookupMTime_none_removePath h q)
      · simp only [hage, if_neg, not_false_iff]
        exact ih fs p h

theorem cleanupTempFiles_missing_discarded (now : Nat) (reg : List String) :
    ∀ fs : List (String × Nat), reg.Nodup →
      ∀ p ∈ reg, lookupMTime fs p = none →
        p ∉ (cleanupTempFiles now fs reg).2.1 ∧
        p ∉ (cleanupTempFiles now fs reg).2.2 := by
  induction reg with
  | nil =>
    intro fs _ p hp
    cases hp
  | cons q rest ih =>
    intro fs hnd p hp hnone
    have hndr : rest.Nodup := (List.nodup_cons.mp hnd).2
    have hqrest : q ∉ rest := (List.nodup_cons.mp hnd).1
    rw [cleanupTempFiles]
    rcases List.mem_cons.mp hp with hpq | hprest
    · subst hpq
      rw [hnone]
      constructor
      · intro hc
        exact hqrest (((cleanupTempFiles_sublists now rest fs).1).subset hc)
      · intro hc
        exact hqrest (((cleanupTempFiles_sublists now rest fs).2).subset hc)
    · have hpq : p ≠ q := fun hc => hqrest (hc ▸ hprest)
      rcases hl : lookupMTime fs q with _ | m
      · exact ih fs hndr p hprest hnone
      · by_cases hage : 3600 < now - m
        · simp only [hage, if_pos]
          have hr := ih (removePath fs q) hndr p hprest (lookupMTime_none_removePath hnone q)
          refine ⟨hr.1, ?_⟩
          intro hc
          rcases List.mem_cons.mp hc with hc1 | hc2
          · exact hpq hc1
          · exact hr.2 hc2
        · simp only [hage, if_neg, not_false_iff]
          have hr := ih fs hndr p hprest hnone
          refine ⟨?_, hr.2⟩
          intro hc
          rcases List.mem_cons.mp hc with hc1 | hc2
          · exact hpq hc1
          · exact hr.1 hc2

theorem cleanupTempFiles_deleted_gone (now : Nat) (reg : List String) :
    ∀ fs : List (String × Nat), reg.Nodup →
      ∀ p ∈ (cleanupTempFiles now fs reg).2.2,
        p ∉ (cleanupTempFiles now fs reg).2.1 ∧
        lookupMTime (cleanupTempFiles now fs reg).1 p = none := by
  induction reg with
  | nil =>
    intro fs _ p hp
    simp [cleanupTempFiles] at hp
  | cons q rest ih =>
    intro fs hnd p hp
    have hndr : rest.Nodup := (List.nodup_cons.mp hnd).2
    have hqrest : q ∉ rest := (List.nodup_cons.mp hnd).1
    rw [cleanupTempFiles] at hp ⊢
    rcases hl : lookupMTime fs q with _ | m
    · rw [hl] at hp
      exact ih fs hndr p hp
    · rw [hl] at hp
      by_cases hage : 3600 < now - m
      · simp only [hage, if_pos] at hp ⊢
        rcases List.mem_cons.mp hp with hpq | htail
        · subst hpq
          constructor
          · intro hc
            exact hqrest (((cleanupTempFiles_sublists now rest (removePath fs p)).1).subset hc)
          · exact cleanupTempFiles_fs_none now rest (removePath fs p) p
              (lookupMTime_removePath_self fs p)
        · exact ih (removePath fs q) hndr p htail
      · simp only [hage, if_neg, not_false_iff] at hp ⊢
        have hr := ih fs hndr p hp
        have hpq : p ≠ q := by
          intro hc
          subst hc
          exact hqrest (((cleanupTempFiles_sublists now rest fs).2).subset hp)
        refine ⟨?_, hr.2⟩
        intro hc
        rcases List.mem_cons.mp hc with hc1 | hc2
        · exact hpq hc1
        · exact hr.1 hc2

/-- Claim C9: a cleanup pass deletes a registered temporary file only when it
is older than one hour; it prunes the rate window of timestamps older than one
minute; a registered path that no longer exists is discarded from the registry
without being unlinked (double deletion is a no-op, not an error); the
unlinked paths of a pass are pairwise distinct and leave both the registry and
the filesystem, so every registered path is deleted at most once. -/
theorem cleanup_resources_spec (now : Nat) (fs : List (String × Nat))
    (reg : List String) (api : List Nat) (hreg : reg.Nodup) :
    (∀ p ∈ (cleanup_resources now fs reg api).2.2.2,
      p ∈ reg ∧ ∃ m, lookupMTime fs p = some m ∧ 3600 < now - m) ∧
    (cleanup_resources now fs reg api).2.2.1 = api.filter (fun t => now - t < 60) ∧
    (∀ p ∈ reg, lookupMTime fs p = none →
      p ∉ (cleanup_resources now fs reg api).2.1 ∧
      p ∉ (cleanup_resources now fs reg api).2.2.2) ∧
    (cleanup_resources now fs reg api).2.2.2.Nodup ∧
    (∀ p ∈ (cleanup_resources now fs reg api).2.2.2,
      p ∉ (cleanup_resources now fs reg api).2.1 ∧
      lookupMTime (cleanup_resources now fs reg api).1 p = none) := by
  refine ⟨?_, rfl, ?_, ?_, ?_⟩
  · intro p hp
    exact ⟨((cleanupTempFiles_sublists now reg fs).2).subset hp,
      cleanupTempFiles_deleted_old now reg fs p hp⟩
  · intro p hp hnone
    exact cleanupTempFiles_missing_discarded now reg fs hreg p hp hnone
  · exact hreg.sublist (cleanupTempFiles_sublists now reg fs).2
  · intro p hp
    exact cleanupTempFiles_deleted_gone now reg fs hreg p hp

/-- Witness for C9 at a concrete state: at instant 4000, the registered file
"a" (modified at 100, hence 3900 seconds old) is unlinked and leaves both the
registry and the filesystem; the already-deleted registered path "c" is
discarded without being unlinked. -/
theorem cleanup_resources_spec_witness :
    ("a" ∉ (cleanup_resources 4000 [("a", 100), ("b", 3999)]
        ["a", "b", "c"] [3000, 3970]).2.1 ∧
      lookupMTime (cleanup_resources 4000 [("a", 100), ("b", 3999)]
        ["a", "b", "c"] [3000, 3970]).1 "a" = none) ∧
    ("c" ∉ (cleanup_resources 4000 [("a", 100), ("b", 3999)]
        ["a", "b", "c"] [3000, 3970]).2.1 ∧
      "c" ∉ (cleanup_resources 4000 [("a", 100), ("b", 3999)]
        ["a", "b", "c"] [3000, 3970]).2.2.2) := by
  have h := cleanup_resources_spec 4000 [("a", 100), ("b", 3999)]
    ["a", "b", "c"] [3000, 3970] (by decide)
  exact ⟨h.2.2.2.2 "a" (by decide), h.2.2.1 "c" (by decide) (by decide)⟩

/-! ## Error taxonomy of the application (src/exceptions.py) together with the
built-in Python errors relevant to the embedded code paths. -/

/-- Python exception values observable in the embedded code: the custom
exceptions of src/exceptions.py plus `subprocess.CalledProcessError` and the
built-in `TypeError`. -/
inductive PyErr where
  | aiderTimeout (msg : String)
  | aiderProcess (msg : String)
  | maxRetries (msg : String)
  | calledProcess (msg : String)
  | codeValidation (msg : String)
  | typeError (msg : String)
deriving DecidableEq

/-! ## FileProcessor._run_tests_and_commit (src/file_processor.py lines
115-128) and GitManager.revert_last_commit (src/git_manager.py lines 84-91) -/

/-- Collaborator invocations made by the verify-and-commit transaction, in
order. -/
inductive GitEv where
  | runTests
  | commitChanges
  | getCurrentCommitSha
  | gitRevert
  | sysExit
deriving DecidableEq

/-- Embeds `GitManager.revert_last_commit` (src/git_manager.py lines 84-91):
run `git revert --no-edit HEAD`, then call `sys.exit(1)`. -/
def revert_last_commit_events : List GitEv := [.gitRevert, .sysExit]

/-- Embeds `FileProcessor._run_tests_and_commit` (src/file_processor.py lines
115-128), parameterized by the outcome of the first test-gate run.  The first
call passes the three required arguments to the staticmethod
`TestRunner.run_tests` (src/test_runner.py lines 14-15); when it fails, the
method logs and returns without committing.  When it passes, the method
commits and reads the commit sha; the second call on line 124 is
`self.components.test_runner.run_tests()` with no arguments, where the wired
component is the `TestRunner` class itself (src/agent_v2.py line 33), so
Python raises `TypeError` at that call and the revert branch is never
reached.  Result: (events performed in order, uncaught exception if any). -/
def run_tests_and_commit (testsPass : Bool) : List GitEv × Option PyErr :=
  if testsPass then
    ([.runTests, .commitChanges, .getCurrentCommitSha],
      some (.typeError
        "run_tests() missing 3 required positional arguments: config, command_runner, and logger"))
  else ([.runTests], none)

/-- Claim C1 (code bug): the claimed transaction is: run the test gate once
before committing; on failure stop without committing; on success commit
exactly once, run the test gate a second time, and revert on a second-run
failure.  The code implements the failure half, but on the success path it
raises an uncaught TypeError immediately after the commit (the second
`run_tests()` call passes none of the three required arguments), so the test
gate never runs a second time and the revert is unreachable. -/
theorem run_tests_and_commit_bug :
    run_tests_and_commit false = ([.runTests], none) ∧
    ((run_tests_and_commit false).1.count GitEv.commitChanges = 0) ∧
    ((run_tests_and_commit true).1.count GitEv.commitChanges = 1) ∧
    ((run_tests_and_commit true).1.count GitEv.runTests = 1) ∧
    (GitEv.gitRevert ∉ (run_tests_and_commit true).1) ∧
    ((run_tests_and_commit true).2 = some (.typeError
      "run_tests() missing 3 required positional arguments: config, command_runner, and logger")) := by
  decide

/-! ## AiderRunner.run_aider error handling (src/aider_runner.py lines
68-112) -/

/-- Outcome of the `subprocess.Popen` block of `AiderRunner.run_aider` (lines
69-103): either the interaction loop completes and the child's return code is
read, or one of the three caught exception kinds is raised while spawning or
interacting. -/
inductive SpawnOutcome where
  | completed (returncode : Int)
  | fileNotFound
  | subprocessErr
  | osErr
deriving DecidableEq

/-- Embeds the exception handling of `AiderRunner.run_aider` (lines 68-112):
`FileNotFoundError`, `subprocess.SubprocessError` and `OSError` are each
caught, logged, and turned into the return value `1`; a completed child's
return code is returned unchanged.  `Except.error` would model an exception
propagating to the caller; no branch produces it. -/
def run_aider (o : SpawnOutcome) : Except PyErr Int :=
  match o with
  | .completed rc => .ok rc
  | .fileNotFound => .ok 1
  | .subprocessErr => .ok 1
  | .osErr => .ok 1

/-- Claim C10: when the child executable is not found or a subprocess or OS
error occurs, `run_aider` catches the exception and returns the integer 1
rather than raising, and all three error outcomes yield the identical value,
so a caller cannot distinguish a missing executable from any other process
failure by the return value. -/
theorem run_aider_swallows_errors (o : SpawnOutcome) :
    (o = .fileNotFound ∨ o = .subprocessErr ∨ o = .osErr → run_aider o = .ok 1) ∧
    run_aider .fileNotFound = run_aider .subprocessErr ∧
    run_aider .fileNotFound = run_aider .osErr := by
  refine ⟨?_, rfl, rfl⟩
  rintro (rfl | rfl | rfl) <;> rfl

/-- Witness for C10: a missing executable produces the return value 1, not an
exception. -/
theorem run_aider_swallows_errors_witness :
    run_aider .fileNotFound = .ok 1 :=
  (run_aider_swallows_errors .fileNotFound).1 (Or.inl rfl)

/-! ## The retry policy wrapped around AiderInterrogator.ask_question
(src/aider_interrogator.py lines 36-67, src/exceptions.py) -/

/-- Embeds one execution of the body of `AiderInterrogator.ask_question`
(lines 41-67), parameterized by the combined outcome of the rate-limit check,
temp-file handling and `_run_aider_process` for that attempt.  On success the
response is returned stripped (`response.strip()`, embedded as `pyStrip`).  The `except` clauses
translate `subprocess.CalledProcessError` and `AiderTimeoutError` into
`AiderProcessError` via `_handle_aider_error` (message
`"Failed to get response from Aider: " ++ the original message`), and
`MaxRetriesExceededError` into a fresh `MaxRetriesExceededError` via
`_handle_max_retries`; every other exception propagates unchanged.  The
`finally` resource cleanup does not alter the result. -/
def ask_question_once (sessionOutcome : Except PyErr String) : Except PyErr String :=
  match sessionOutcome with
  | .ok response => .ok (pyStrip response)
  | .error (.calledProcess m) =>
    .error (.aiderProcess ("Failed to get response from Aider: " ++ m))
  | .error (.aiderTimeout m) =>
    .error (.aiderProcess ("Failed to get response from Aider: " ++ m))
  | .error (.maxRetries _) =>
    .error (.maxRetries "Maximum retries exceeded for Aider process")
  | .error e => .error e

/-- Embeds `tenacity.wait_exponential(multiplier=1, min=4, max=10)`: the delay
after the k-th completed attempt is `multiplier * 2 ^ k` clamped into
[min, max]. -/
def waitExponential (attemptNumber : Nat) : Nat :=
  max 4 (min (1 * 2 ^ attemptNumber) 10)

/-- Equality of session results is decidable. -/
instance : DecidableEq (Except PyErr String) := fun a b =>
  match a, b with
  | .ok x, .ok y =>
    if h : x = y then isTrue (by rw [h]) else isFalse (fun hc => by cases hc; exact h rfl)
  | .error x, .error y =>
    if h : x = y then isTrue (by rw [h]) else isFalse (fun hc => by cases hc; exact h rfl)
  | .ok _, .error _ => isFalse (fun hc => by cases hc)
  | .error _, .ok _ => isFalse (fun hc => by cases hc)

/-- Result of running a retried callable: final result, number of invocations
performed, and the backoff delays slept between attempts. -/
structure RetryRun where
  result : Except PyErr String
  attempts : Nat
  delays : List Nat
deriving DecidableEq

/-- Embeds the `tenacity.retry(stop=stop_after_attempt(3),
wait=wait_exponential(...), reraise=True)` decorator on `ask_question` (lines
36-40): the default retry predicate retries on any raised exception; with
`reraise=True` the exception of the final attempt is re-raised unchanged once
the stop condition (3 attempts) is reached.  `attemptIdx` is the zero-based
index of the current attempt and `remaining` the number of further attempts
allowed. -/
def tenacityRun (f : Nat → Except PyErr String) (attemptIdx : Nat) :
    Nat → RetryRun
  | 0 => ⟨f attemptIdx, attemptIdx + 1, []⟩
  | remaining + 1 =>
    match f attemptIdx with
    | .ok a => ⟨.ok a, attemptIdx + 1, []⟩
    | .error _ =>
      let r := tenacityRun f (attemptIdx + 1) remaining
      ⟨r.result, r.attempts, waitExponential (attemptIdx + 1) :: r.delays⟩

/-- Embeds the decorated `AiderInterrogator.ask_question`: the retried unit of
work is one run of the method body, whose per-attempt session outcome is given
by `outcomes`. -/
def ask_question (outcomes : Nat → Except PyErr String) : RetryRun :=
  tenacityRun (fun i => ask_question_once (outcomes i)) 0 2

/-- A session outcome in which every attempt raises the transient
`AiderTimeoutError`. -/
def alwaysTimeoutOutcomes : Nat → Except PyErr String :=
  fun _ => .error (.aiderTimeout "Aider process timed out after 300 seconds")

/-- Recognizes a `MaxRetriesExceededError` result. -/
def isMaxRetriesResult : Except PyErr String → Bool
  | .error (.maxRetries _) => true
  | _ => false

/-- Counterexample to claim C3 as stated: a unit of work that always raises a
transient Timeout error is retried 3 times, but the failure surfaced to the
caller is the translated underlying error (`AiderProcessError`, re-raised by
`reraise=True`), not a `MaxRetriesExceeded` signal. -/
theorem ask_question_no_max_retries_signal :
    (ask_question alwaysTimeoutOutcomes).attempts = 3 ∧
    (ask_question alwaysTimeoutOutcomes).result =
      .error (.aiderProcess
        "Failed to get response from Aider: Aider process timed out after 300 seconds") ∧
    isMaxRetriesResult (ask_question alwaysTimeoutOutcomes).result = false := by
  refine ⟨rfl, ?_, rfl⟩
  decide

theorem tenacityRun_attempts_le (f : Nat → Except PyErr String) :
    ∀ remaining attemptIdx,
      (tenacityRun f attemptIdx remaining).attempts ≤ attemptIdx + remaining + 1 := by
  intro remaining
  induction remaining with
  | zero =>
    intro attemptIdx
    simp [tenacityRun]
  | succ n ih =>
    intro attemptIdx
    rw [tenacityRun]
    rcases f attemptIdx with e | a
    · have := ih (attemptIdx + 1)
      simp only []
      omega
    · simp only []
      omega

theorem tenacityRun_err_err_ok {f : Nat → Except PyErr String} {c0 c1 : PyErr}
    {v : String} (h0 : f 0 = .error c0) (h1 : f 1 = .error c1) (h2 : f 2 = .ok v) :
    tenacityRun f 0 2 = ⟨.ok v, 3, [waitExponential 1, waitExponential 2]⟩ := by
  simp [tenacityRun, h0, h1, h2]

theorem tenacityRun_err_err_err {f : Nat → Except PyErr String} {c0 c1 c2 : PyErr}
    (h0 : f 0 = .error c0) (h1 : f 1 = .error c1) (h2 : f 2 = .error c2) :
    tenacityRun f 0 2 = ⟨.error c2, 3, [waitExponential 1, waitExponential 2]⟩ := by
  simp [tenacityRun, h0, h1, h2]

/-- Claim C3 as amended: the wrapper makes at most 3 attempts; the backoff
delays follow the clamped exponential schedule; a unit of work that fails
twice and then succeeds returns the (stripped) success value after exactly 3
invocations; one that always fails is invoked exactly 3 times and the
translated error of the final attempt is re-raised unchanged (never converted
to a `MaxRetriesExceeded` signal); any raised error is retried the same way,
including validation errors. -/
theorem ask_question_retry_spec (outcomes : Nat → Except PyErr String) :
    (ask_question outcomes).attempts ≤ 3 ∧
    (∀ e0 e1 v, outcomes 0 = .error e0 → outcomes 1 = .error e1 → outcomes 2 = .ok v →
      (ask_question outcomes).result = .ok (pyStrip v) ∧
      (ask_question outcomes).attempts = 3 ∧
      (ask_question outcomes).delays = [waitExponential 1, waitExponential 2]) ∧
    (∀ e0 e1 e2, outcomes 0 = .error e0 → outcomes 1 = .error e1 → outcomes 2 = .error e2 →
      (ask_question outcomes).result = ask_question_once (.error e2) ∧
      (ask_question outcomes).attempts = 3) := by
  have herr : ∀ e : PyErr, ∃ e2 : PyErr, ask_question_once (.error e) = .error e2 := by
    intro e
    rcases e with m | m | m | m | m | m <;> exact ⟨_, rfl⟩
  refine ⟨?_, ?_, ?_⟩
  · have h := tenacityRun_attempts_le (fun i => ask_question_once (outcomes i)) 2 0
    simpa [ask_question] using h
  · intro e0 e1 v h0 h1 h2
    obtain ⟨c0, hc0⟩ := herr e0
    obtain ⟨c1, hc1⟩ := herr e1
    have f0 : ask_question_once (outcomes 0) = .error c0 := by rw [h0]; exact hc0
    have f1 : ask_question_once (outcomes 1) = .error c1 := by rw [h1]; exact hc1
    have f2 : ask_question_once (outcomes 2) = .ok (pyStrip v) := by rw [h2]; rfl
    have hrun := tenacityRun_err_err_ok (f := fun i => ask_question_once (outcomes i))
      f0 f1 f2
    rw [ask_question, hrun]
    exact ⟨rfl, rfl, rfl⟩
  · intro e0 e1 e2 h0 h1 h2
    obtain ⟨c0, hc0⟩ := herr e0
    obtain ⟨c1, hc1⟩ := herr e1
    obtain ⟨c2, hc2⟩ := herr e2
    have f0 : ask_question_once (outcomes 0) = .error c0 := by rw [h0]; exact hc0
    have f1 : ask_question_once (outcomes 1) = .error c1 := by rw [h1]; exact hc1
    have f2 : ask_question_once (outcomes 2) = .error c2 := by rw [h2]; exact hc2
    have hrun := tenacityRun_err_err_err (f := fun i => ask_question_once (outcomes i))
      f0 f1 f2
    rw [ask_question, hrun]
    refine ⟨?_, rfl⟩
    rw [h2] at f2
    exact f2.symm

/-- Witness for the amended C3 at a concrete unit of work: two transient
timeouts followed by a success return the success value after exactly 3
invocations, with backoff delays 4 and 4 seconds. -/
theorem ask_question_retry_spec_witness :
    (ask_question (fun i => if i < 2
        then .error (.aiderTimeout "t") else .ok "fixed")).result = .ok "fixed" ∧
    (ask_question (fun i => if i < 2
        then .error (.aiderTimeout "t") else .ok "fixed")).attempts = 3 ∧
    (ask_question (fun i => if i < 2
        then .error (.aiderTimeout "t") else .ok "fixed")).delays = [4, 4] := by
  have h := (ask_question_retry_spec (fun i => if i < 2
      then .error (.aiderTimeout "t") else .ok "fixed")).2.1
    (.aiderTimeout "t") (.aiderTimeout "t") "fixed" (by decide) (by decide) (by decide)
  refine ⟨?_, h.2.1, ?_⟩
  · rw [h.1]
    decide
  · rw [h.2.2]
    decide

/-! ## AiderInterrogator._process_aider_output: line handling and capture
(src/aider_interrogator.py lines 117-153) -/

/-- Mutable state of the read loop of `_process_aider_output`: the response
buffer (a Python string, embedded as its character sequence), the
`capture_output` flag, and the answers written to the child's stdin. -/
structure OutputState where
  response : List Char
  capture_output : Bool
  stdinWrites : List String
deriving DecidableEq

/-- The loop state on entry: `response = ""`, `capture_output = False`, and
nothing written to stdin yet. -/
def initOutputState : OutputState := ⟨[], false, []⟩

/-- Embeds the per-line body of the read loop (lines 138-147): a falsy (empty)
line is skipped; a line containing the `"Use /help"` marker sets
`capture_output` and is skipped via `continue` (so it is neither appended nor
answered); otherwise the line is appended to the response when the flag is
set, and when it contains a literal `?` the canned answer `"No\n"` is written
to the child's stdin and flushed. -/
def processLine (st : OutputState) (output : String) : OutputState :=
  if output = "" then st
  else if pyIn "Use /help" output then { st with capture_output := true }
  else
    let st1 := if st.capture_output
      then { st with response := st.response ++ output.data } else st
    if pyIn "?" output then { st1 with stdinWrites := st1.stdinWrites ++ ["No\n"] }
    else st1

/-- The read loop of `_process_aider_output` over the sequence of lines
returned by `process.stdout.readline()` before end-of-stream. -/
def processOutputLines (lines : List String) : OutputState :=
  lines.foldl processLine initOutputState

/-- A line that the loop appends while capturing: non-empty and not a marker
line. -/
def captureKeep (l : String) : Bool := decide (l ≠ "") && !pyIn "Use /help" l

/-- A line that receives the canned `"No"` answer: non-empty, not a marker
line, and containing a literal question mark. -/
def promptAnswered (l : String) : Bool :=
  decide (l ≠ "") && !pyIn "Use /help" l && pyIn "?" l

/-- The response accumulated by the loop from `lines` when the capture flag
starts as `flag`. -/
def expectedCapture (flag : Bool) (lines : List String) : List Char :=
  if flag then ((lines.filter captureKeep).map String.data).flatten
  else ((((lines.dropWhile (fun l => !pyIn "Use /help" l)).tail).filter
    captureKeep).map String.data).flatten

theorem foldl_processLine_spec (lines : List String) :
    ∀ st : OutputState,
      lines.foldl processLine st =
        ⟨st.response ++ expectedCapture st.capture_output lines,
         st.capture_output || lines.any (fun l => pyIn "Use /help" l),
         st.stdinWrites ++ (lines.filter promptAnswered).map (fun _ => "No\n")⟩ := by
  induction lines with
  | nil =>
    intro st
    simp [expectedCapture]
  | cons l rest ih =>
    intro st
    rw [List.foldl_cons, ih]
    by_cases hempty : l = ""
    · subst hempty
      have hm : pyIn "Use /help" "" = false := by decide
      have hck : captureKeep "" = false := by decide
      have hpa : promptAnswered "" = false := by decide
      have hexp : ∀ b, expectedCapture b ("" :: rest) = expectedCapture b rest := by
        intro b
        cases b <;>
          simp [expectedCapture, hck, hm, List.dropWhile_cons, List.filter_cons]
      simp [processLine, hexp, hm, hpa, List.filter_cons, List.any_cons]
    · by_cases hmark : pyIn "Use /help" l = true
      · have hck : captureKeep l = false := by simp [captureKeep, hmark]
        have hpa : promptAnswered l = false := by simp [promptAnswered, hmark]
        have hpl : processLine st l = { st with capture_output := true } := by
          simp [processLine, hempty, hmark]
        rw [hpl]
        have hexp : ∀ b, expectedCapture b (l :: rest) = expectedCapture true rest := by
          intro b
          cases b
          · simp [expectedCapture, List.dropWhile_cons, hmark]
          · simp [expectedCapture, List.filter_cons, hck]
        simp [hexp, hmark, List.filter_cons, hpa, List.any_cons]
      · have hmark' : pyIn "Use /help" l = false := by simpa using hmark
        have hck : captureKeep l = true := by simp [captureKeep, hempty, hmark']
        have hexpF : expectedCapture false (l :: rest) = expectedCapture false rest := by
          simp [expectedCapture, List.dropWhile_cons, hmark']
        have hexpT : expectedCapture true (l :: rest) = l.data ++ expectedCapture true rest := by
          simp [expectedCapture, List.filter_cons, hck]
        by_cases hq : pyIn "?" l = true
        · have hpa : promptAnswered l = true := by
            simp [promptAnswered, hempty, hmark', hq]
          rcases hcap : st.capture_output with _ | _
          · have hpl : processLine st l =
                { st with stdinWrites := st.stdinWrites ++ ["No\n"] } := by
              simp [processLine, hempty, hmark', hcap, hq]
            rw [hpl]
            simp [hexpF, hcap, hmark', List.any_cons, List.filter_cons, hpa,
              List.append_assoc]
          · have hpl : processLine st l =
                { st with response := st.response ++ l.data,
                          stdinWrites := st.stdinWrites ++ ["No\n"] } := by
              simp [processLine, hempty, hmark', hcap, hq]
            rw [hpl]
            simp [hexpT, hcap, hmark', List.any_cons, List.filter_cons, hpa,
              List.append_assoc]
        · have hq' : pyIn "?" l = false := by simpa using hq
          have hpa : promptAnswered l = false := by simp [promptAnswered, hq']
          rcases hcap : st.capture_output with _ | _
          · have hpl : processLine st l = st := by
              simp [processLine, hempty, hmark', hcap, hq']
            rw [hpl]
            simp [hexpF, hcap, hmark', List.any_cons, List.filter_cons, hpa]
          · have hpl : processLine st l =
                { st with response := st.response ++ l.data } := by
              simp [processLine, hempty, hmark', hcap, hq']
            rw [hpl]
            simp [hexpT, hcap, hmark', List.any_cons, List.filter_cons, hpa,
              List.append_assoc]

/-- The concrete line sequence refuting claim C8 as stated: the marker occurs
again after capture has begun, once on a line that also contains `?`. -/
def cexLines : List String :=
  ["Use /help for more\n", "a\n", "see Use /help again\n",
   "sure? see Use /help\n", "b\n"]

/-- Counterexample to claim C8 as stated: the captured response is not
"exactly the lines read after the first marker line" — every line containing
the marker is skipped (the `continue` runs on each marker hit, not only the
first), and a line containing `?` together with the marker receives no `"No"`
answer. -/
theorem process_aider_output_counterexample :
    (processOutputLines cexLines).response = ("a\n" ++ "b\n").data ∧
    (processOutputLines cexLines).response ≠
      ("a\n" ++ "see Use /help again\n" ++ "sure? see Use /help\n" ++ "b\n").data ∧
    (processOutputLines cexLines).stdinWrites = [] ∧
    (processOutputLines cexLines).stdinWrites ≠ ["No\n"] := by
  decide

/-- Claim C8 as amended: for every sequence of lines read during a session,
the captured response is exactly the concatenation of the non-empty lines that
follow the first marker-containing line, excluding every line that itself
contains the marker (each marker hit re-runs the `continue`); and the canned
answer `"No"` plus line terminator is written once for every non-empty line
that contains a literal `?` and does not contain the marker. -/
theorem process_aider_output_spec (lines : List String) :
    (processOutputLines lines).response =
      ((((lines.dropWhile (fun l => !pyIn "Use /help" l)).tail).filter
        captureKeep).map String.data).flatten ∧
    (processOutputLines lines).stdinWrites =
      (lines.filter promptAnswered).map (fun _ => "No\n") ∧
    (processOutputLines lines).capture_output =
      lines.any (fun l => pyIn "Use /help" l) := by
  have h := foldl_processLine_spec lines initOutputState
  rw [processOutputLines, h]
  refine ⟨?_, rfl, rfl⟩
  simp [initOutputState, expectedCapture]

/-! ## AiderInterrogator timeout handling
(src/aider_interrogator.py lines 94-128) -/

/-- Unix signals sent by the timeout path. -/
inductive Sig where
  | sigterm
  | sigkill
deriving DecidableEq

/-- A model of the child started by `_run_aider_process` (lines 98-110):
its pid, the pids of its process group (`start_new_session=True` puts the
child and any grandchildren into a fresh group), and whether it is still
alive 5 seconds after receiving SIGTERM. -/
structure ProcModel where
  pid : Nat
  groupPids : List Nat
  surviveGrace : Bool
deriving DecidableEq

/-- Outcome of the read loop of `_process_aider_output`. -/
inductive SessionOutcome where
  | finished (response : List Char)
  | raisedAiderTimeout
  | raisedTimeoutExpired
deriving DecidableEq

/-- What the session did: its outcome and the (pid, signal) pairs sent. -/
structure SessionTrace where
  outcome : SessionOutcome
  signaled : List (Nat × Sig)
deriving DecidableEq

/-- Embeds the timeout branch of `_process_aider_output` (lines 123-128)
together with the Python semantics of the `subprocess.Popen` methods used:
`process.terminate()` sends SIGTERM to the direct child pid only, not to the
process group; `process.wait(timeout=5)` returns when the child exits within
the 5-second grace period and raises `subprocess.TimeoutExpired` otherwise,
which line 125 does not catch; consequently the `process.poll() is None` test
on line 126 runs only after a successful wait, when the child has already
exited, so `process.kill()` on line 127 is never executed, and the
`AiderTimeoutError` of line 128 is raised only when the child terminated
within the grace period. -/
def timeoutKillPath (c : ProcModel) : SessionTrace :=
  if c.surviveGrace then ⟨.raisedTimeoutExpired, [(c.pid, .sigterm)]⟩
  else ⟨.raisedAiderTimeout, [(c.pid, .sigterm)]⟩

/-- Embeds the read loop of `_process_aider_output` (lines 122-147) with its
deadline check: at the top of each iteration the elapsed time is compared
against the timeout (strictly greater), and only then does the blocking
`readline()` run; each read is modelled as (arrival instant in seconds since
session start, line).  An exhausted read list is end-of-stream with the
process no longer running.  The timeout branch always raises, so it executes
at most once per session. -/
def outputLoop (c : ProcModel) (timeout : Nat) :
    List (Nat × String) → Nat → OutputState → SessionTrace
  | reads, now, st =>
    if timeout < now then timeoutKillPath c
    else
      match reads with
      | [] => ⟨.finished st.response, []⟩
      | (arrival, line) :: rest => outputLoop c timeout rest arrival (processLine st line)

/-- A child (pid 1) with a grandchild (pid 2) in its process group that is
still alive 5 seconds after SIGTERM. -/
def stubbornChild : ProcModel := ⟨1, [1, 2], true⟩

/-- The same process group, but the child exits within the grace period. -/
def yieldingChild : ProcModel := ⟨1, [1, 2], false⟩

/-- Claim C2 (code bug), evaluated at the failing input: a session whose child
produces its next line only after the 300-second deadline triggers the timeout
branch, which sends SIGTERM to the direct child only — the grandchild in the
process group is never signaled; when the child is still alive after the
5-second grace period, no SIGKILL escalation happens and the session fails
with an uncaught `subprocess.TimeoutExpired` from `process.wait` instead of
the claimed `Timeout` error; the claimed behavior (group-wide terminate, kill
escalation, `Timeout` failure) occurs on no input. -/
theorem timeout_path_bug :
    outputLoop stubbornChild 300 [(301, "thinking\n")] 0 initOutputState =
      ⟨.raisedTimeoutExpired, [(1, Sig.sigterm)]⟩ ∧
    (1, Sig.sigkill) ∉
      (outputLoop stubbornChild 300 [(301, "thinking\n")] 0 initOutputState).signaled ∧
    (2, Sig.sigterm) ∉
      (outputLoop stubbornChild 300 [(301, "thinking\n")] 0 initOutputState).signaled ∧
    (2, Sig.sigkill) ∉
      (outputLoop stubbornChild 300 [(301, "thinking\n")] 0 initOutputState).signaled ∧
    (outputLoop stubbornChild 300 [(301, "thinking\n")] 0 initOutputState).outcome ≠
      SessionOutcome.raisedAiderTimeout ∧
    outputLoop yieldingChild 300 [(301, "thinking\n")] 0 initOutputState =
      ⟨.raisedAiderTimeout, [(1, Sig.sigterm)]⟩ ∧
    (2, Sig.sigterm) ∉
      (outputLoop yieldingChild 300 [(301, "thinking\n")] 0 initOutputState).signaled := by
  decide

end CRScan
